import Mathlib

/-!
Verification development for the draw2pdf library
(src/ascii85.h, src/draw2pdf.h, src/draw2pdf.cpp).

The code is shallowly embedded: bytes are `Nat` (values < 256 where it
matters), machine-size counters are `Nat`, C doubles are `ℚ` (the code
performs no arithmetic on them, they are only stored and formatted), the
C runtime's `%lf` formatter is an explicit function parameter `fmtD`,
and the positions returned by `ftell` on the output file are an explicit
oracle `ftell : Nat → Nat` indexed by a call counter.
-/

/-! ### ASCII-85 encoder (src/ascii85.h) -/

/-- `const size_t lineWidth = 72;` (src/ascii85.h line 51). -/
def lineWidth : Nat := 72

/-- The mutable state of `class Ascii85Encoder`: the output buffer,
the current output column, the tuple accumulator, and the number of
input bytes buffered in the tuple. -/
structure Ascii85Encoder where
  m_output : List Nat
  m_column : Nat
  m_tuple : Nat
  m_count : Nat

/-- The character-emission pattern used throughout the encoder:
`m_output.push_back(c); if (m_column++ >= lineWidth) { m_column = 0; push CR; push LF; }`. -/
def pushChar (s : Ascii85Encoder) (c : Nat) : Ascii85Encoder :=
  if lineWidth ≤ s.m_column then
    { s with m_output := s.m_output ++ [c, 13, 10], m_column := 0 }
  else
    { s with m_output := s.m_output ++ [c], m_column := s.m_column + 1 }

/-- The characters emitted by `Ascii85Encoder::EncodeTuple`: the `buf` loop
computes the five base-85 digits of `tuple` least-significant first by
repeated `% 85` / `/= 85`, and the output loop emits `buf[4 - index] + '!'`
for `index = 0 .. count`, i.e. the first `count + 1` of the digits written
most-significant first, each offset by `'!' = 33`. -/
def encodeTupleChars (tuple count : Nat) : List Nat :=
  let b0 := tuple % 85
  let t1 := tuple / 85
  let b1 := t1 % 85
  let t2 := t1 / 85
  let b2 := t2 % 85
  let t3 := t2 / 85
  let b3 := t3 % 85
  let t4 := t3 / 85
  let b4 := t4 % 85
  List.take (count + 1) [b4 + 33, b3 + 33, b2 + 33, b1 + 33, b0 + 33]

/-- `Ascii85Encoder::EncodeTuple` (src/ascii85.h lines 108-133). -/
def Ascii85Encoder.EncodeTuple (s : Ascii85Encoder) (tuple count : Nat) : Ascii85Encoder :=
  (encodeTupleChars tuple count).foldl pushChar s

/-- `Ascii85Encoder::EncodeByte` (src/ascii85.h lines 138-165).
`switch (m_count++)` packs the byte into the tuple big-endian; on the
fourth byte a zero tuple emits the single shortcut character `'z' = 122`,
otherwise the tuple is emitted via `EncodeTuple` with count 4. -/
def Ascii85Encoder.EncodeByte (s : Ascii85Encoder) (c : Nat) : Ascii85Encoder :=
  match s.m_count with
  | 0 => { s with m_count := 1, m_tuple := s.m_tuple ||| (c <<< 24) }
  | 1 => { s with m_count := 2, m_tuple := s.m_tuple ||| (c <<< 16) }
  | 2 => { s with m_count := 3, m_tuple := s.m_tuple ||| (c <<< 8) }
  | _ =>
    let t := s.m_tuple ||| c
    let s' := if t = 0 then pushChar s 122 else s.EncodeTuple t 4
    { s' with m_tuple := 0, m_count := 0 }

/-- `Ascii85Encoder::EncodeToAscii85` (src/ascii85.h lines 72-102), as a
function of the input byte list.  Note the early return for empty input:
nothing at all is emitted, not even the terminator. -/
def EncodeToAscii85 (data : List Nat) : List Nat :=
  if data.length < 1 then [] else
  let s : Ascii85Encoder := ⟨[], 0, 0, 0⟩
  let s := data.foldl Ascii85Encoder.EncodeByte s
  let s := if 0 < s.m_count then s.EncodeTuple s.m_tuple s.m_count else s
  let s := if lineWidth < s.m_column + 2 then { s with m_output := s.m_output ++ [13, 10] } else s
  s.m_output ++ [126, 62, 13, 10]

/-- Split a byte list into the segments separated by CRLF (13, 10) pairs.
The result always ends with the (possibly empty) segment after the last
CRLF, so a buffer ending in CRLF yields a trailing `[]`. -/
def splitCRLF : List Nat → List (List Nat)
  | [] => [[]]
  | 13 :: 10 :: rest => [] :: splitCRLF rest
  | c :: rest =>
    match splitCRLF rest with
    | [] => [[c]]
    | l :: ls => (c :: l) :: ls

/-- Remove every CR (13) and LF (10) byte. -/
def stripCRLF (l : List Nat) : List Nat :=
  l.filter (fun c => !(c == 13) && !(c == 10))

/-- The value of a list of base-85 digits, most significant first. -/
def digitsVal (ds : List Nat) : Nat :=
  ds.foldl (fun a d => a * 85 + d) 0

/-- The four big-endian bytes of a 32-bit value. -/
def decodeGroup5 (v : Nat) : List Nat :=
  [v / 2 ^ 24 % 256, v / 2 ^ 16 % 256, v / 2 ^ 8 % 256, v % 256]

/-- Modelled from the spec: the final, possibly short, digit group of an
ASCII-85 stream.  A trailing group of `k` digits (2..4) is padded with the
maximal digit `'u' - '!' = 84` to five digits and the first `k - 1` bytes
of the resulting 32-bit value are the decoded bytes. -/
def decodeLastGroup (acc : List Nat) : List Nat :=
  if acc.length ≤ 1 then []
  else
    let padded := acc ++ List.replicate (5 - acc.length) 84
    (decodeGroup5 (digitsVal padded % 2 ^ 32)).take (acc.length - 1)

/-- Modelled from the spec: the digit-consuming loop of an ASCII-85 decoder
(no decoder ships with the repository; the spec's round-trip property refers
to standard ASCII-85 decoding, cf. the reference cited in src/ascii85.h).
`'~' = 126` terminates, `'z' = 122` stands for four zero bytes, any other
character is a digit (value `c - '!'`); five digits give four bytes of the
group value taken modulo 2^32. -/
def decodeCore (acc : List Nat) : List Nat → List Nat
  | [] => decodeLastGroup acc
  | c :: rest =>
    if c = 126 then decodeLastGroup acc
    else if c = 122 then 0 :: 0 :: 0 :: 0 :: decodeCore [] rest
    else
      let acc' := acc ++ [c - 33]
      if acc'.length = 5 then decodeGroup5 (digitsVal acc' % 2 ^ 32) ++ decodeCore [] rest
      else decodeCore acc' rest

/-- Modelled from the spec: a standard ASCII-85 decoder — line breaks (CR,
LF) are skipped, then the digit stream is decoded group by group. -/
def DecodeAscii85 (input : List Nat) : List Nat :=
  decodeCore [] (stripCRLF input)

/-- The number of full 4-byte groups of the input whose bytes are all zero
(a trailing group of 1..3 bytes is never counted). -/
def zeroGroupCount : List Nat → Nat
  | a :: b :: c :: d :: rest =>
    (if a = 0 ∧ b = 0 ∧ c = 0 ∧ d = 0 then 1 else 0) + zeroGroupCount rest
  | _ => 0

/-- The sequence of data characters (digits and `'z'`, no line breaks, no
terminator) that the encoder run emits from tuple state `(tuple, count)`
onwards, including the final flush of a leftover group.  This is the pure
mirror of `EncodeByte`'s switch followed by the flush in
`EncodeToAscii85`; it is proved below to describe the encoder's output
with the CR/LF bytes removed. -/
def encodeCoreFlush (tuple count : Nat) : List Nat → List Nat
  | [] => if 0 < count then encodeTupleChars tuple count else []
  | c :: rest =>
    match count with
    | 0 => encodeCoreFlush (tuple ||| (c <<< 24)) 1 rest
    | 1 => encodeCoreFlush (tuple ||| (c <<< 16)) 2 rest
    | 2 => encodeCoreFlush (tuple ||| (c <<< 8)) 3 rest
    | _ =>
      (if tuple ||| c = 0 then [122] else encodeTupleChars (tuple ||| c) 4) ++
        encodeCoreFlush 0 0 rest

/-- Proof infrastructure: the encoder output so far is a sequence of
complete CRLF-terminated lines of at most 73 data characters, followed by a
partial line whose length is the current output column. -/
def LineInv (output : List Nat) (column : Nat) : Prop :=
  ∃ (lines : List (List Nat)) (rest : List Nat),
    output = (lines.map (fun l => l ++ [13, 10])).join ++ rest ∧
    (∀ l ∈ lines, (∀ x ∈ l, x ≠ 13 ∧ x ≠ 10) ∧ l.length ≤ 73) ∧
    (∀ x ∈ rest, x ≠ 13 ∧ x ≠ 10) ∧
    rest.length = column ∧ column ≤ 72

/-! ### Stream accumulator (src/draw2pdf.cpp, `PDFStreamAccumulator`) -/

/-- The sequence of scratch-buffer sizes attempted by
`PDFStreamAccumulator::Printf`: `for (size_t bufferSize = 32; bufferSize < 16384; bufferSize *= 2)`
starting from the given size. -/
def bufferSizes (n : Nat) : List Nat :=
  if h : 0 < n ∧ n < 16384 then n :: bufferSizes (n * 2) else []
termination_by 16384 - n
decreasing_by omega

/-- `PDFStreamAccumulator::Printf` (src/draw2pdf.cpp lines 104-120) as a
function of the fully rendered format expansion.  `_vsnprintf_s` with
`_TRUNCATE` succeeds (returns ≠ -1) exactly when the rendered text plus its
terminating NUL fits the buffer; the first fitting attempt is appended.
When no attempted size fits, `buffer` keeps its initial empty value and the
empty string is appended. -/
def PrintfResult (rendered : String) : String :=
  match (bufferSizes 32).find? (fun sz => decide (rendered.length + 1 ≤ sz)) with
  | some _ => rendered
  | none => ""

/-! ### Data model (src/draw2pdf.h) -/

/-- `enum LinePattern { LINE_SOLID=0, LINE_NULL=1 }`. -/
inductive LinePattern where
  | LINE_SOLID
  | LINE_NULL
deriving DecidableEq

/-- `enum FillPattern { FILL_SOLID=0, FILL_NULL=1 }`. -/
inductive FillPattern where
  | FILL_SOLID
  | FILL_NULL
deriving DecidableEq

/-- `struct PDFColor`; saturations are C doubles, embedded as `ℚ`. -/
structure PDFColor where
  m_red : ℚ
  m_green : ℚ
  m_blue : ℚ
  m_alpha : ℚ
deriving DecidableEq

/-- `struct PDFLineStyle`. -/
structure PDFLineStyle where
  m_pattern : LinePattern
  m_color : PDFColor
  m_width : ℚ
deriving DecidableEq

/-- `struct PDFFillStyle`. -/
structure PDFFillStyle where
  m_pattern : FillPattern
  m_color : PDFColor
deriving DecidableEq

/-- `struct PDFTextStyle`. -/
structure PDFTextStyle where
  m_height : ℚ
  m_color : PDFColor
deriving DecidableEq

/-- `struct PDFPoint`. -/
structure PDFPoint where
  x : ℚ
  y : ℚ
deriving DecidableEq

/-- `struct PDFBox`. -/
structure PDFBox where
  m_min : PDFPoint
  m_max : PDFPoint
deriving DecidableEq

/-- `struct PDFCrossRef`: one `{objectNumber, byteOffset}` record. -/
structure PDFCrossRef where
  m_objnum : Nat
  m_offset : Nat
deriving DecidableEq

/-- `struct PDFImage`.  Pixel bytes are `Nat`. -/
structure PDFImage where
  m_numX : Nat
  m_numY : Nat
  m_bpp : Nat
  m_stride : Nat
  m_objNum : Nat
  m_pixels : List Nat
deriving DecidableEq

/-! ### Image pipeline (src/draw2pdf.cpp, `DoWriteImage` and `DeflateData`) -/

/-- The repacking loop of `Draw2pdf::DoWriteImage` (src/draw2pdf.cpp lines
502-517): `rawData` is a zero-initialized buffer of
`m_numY * m_numX * m_bpp / 8` bytes; for each scanline `y` the input
pointer starts at `y * m_stride` and the output pointer at
`y * m_numX * m_bpp / 8`; per pixel, `outChannels` bytes are copied and a
32-bpp input additionally skips its alpha byte. -/
def repackImage (image : PDFImage) : List Nat :=
  let outChannels := if image.m_bpp = 8 then 1 else 3
  let inStep := outChannels + (if image.m_bpp = 32 then 1 else 0)
  (List.range image.m_numY).foldl (fun raw y =>
    (List.range image.m_numX).foldl (fun raw x =>
      (List.range outChannels).foldl (fun raw channel =>
        raw.set (y * image.m_numX * image.m_bpp / 8 + x * outChannels + channel)
          (image.m_pixels.getD (y * image.m_stride + x * inStep + channel) 0))
        raw) raw)
    (List.replicate (image.m_numY * image.m_numX * image.m_bpp / 8) 0)

/-- `DeflateData` (src/draw2pdf.cpp lines 58-72) as a function of the
external ZLIB call's result (`errcode`, and the bytes the call wrote):
on any status other than `Z_OK = 0` the length is forced to 0 and the
resized output is empty. -/
def DeflateData (errcode : Int) (compressedBytes : List Nat) : List Nat :=
  if errcode ≠ 0 then [] else compressedBytes

/-- The encoded payload part of one image object: the `/Filter` tag, the
declared `/Length`, and the stream payload bytes. -/
structure ImageEmission where
  filter : String
  length : Nat
  payload : List Nat
deriving DecidableEq

/-- The codec-selection part of `Draw2pdf::DoWriteImage` (src/draw2pdf.cpp
lines 519-533): with compression enabled the payload is whatever
`DeflateData` produced (no fallback path exists), otherwise the repacked
data is ASCII-85 encoded. -/
def imageEmission (compress : Bool) (errcode : Int) (compressedBytes : List Nat)
    (rawData : List Nat) : ImageEmission :=
  if compress then
    let encodedData := DeflateData errcode compressedBytes
    ⟨"FlateDecode", encodedData.length, encodedData⟩
  else
    let encodedData := EncodeToAscii85 rawData
    ⟨"ASCII85Decode", encodedData.length, encodedData⟩

/-! ### Document assembler state (class `Draw2pdf`) -/

/-- The state of a `Draw2pdf` instance between calls, together with the
two ambient effects the embedding makes explicit: `ftell` (the file
positions the C code reads back when recording cross references, indexed
by `clock`, the number of `ftell` reads so far) and `fmtD` (the C
runtime's `%lf` rendering of a double). -/
structure Draw2pdf where
  ftell : Nat → Nat
  clock : Nat
  fmtD : ℚ → String
  m_pageMinimumPoints : PDFPoint
  m_pageMaximumPoints : PDFPoint
  m_lineStyle : PDFLineStyle
  m_fillStyle : PDFFillStyle
  m_textStyle : PDFTextStyle
  m_crossRefs : List PDFCrossRef
  m_objNumber : Nat
  m_catalogObjNumber : Nat
  m_pagesObjNumber : Nat
  m_contentsObjNumber : Nat
  m_xobjectObjNumber : Nat
  m_pageObjectNumbers : List Nat
  m_contentStream : String
  m_images : List PDFImage
  m_compressImages : Bool
  m_compressContent : Bool

/-- Append text to the page content stream (`m_contentStream.Printf`
calls, with the rendered pieces concatenated). -/
def appendCS (s : Draw2pdf) (t : String) : Draw2pdf :=
  { s with m_contentStream := s.m_contentStream ++ t }

/-- Record one cross reference: `m_crossRefs.push_back(PDFCrossRef(objnum, ftell(m_file)))`. -/
def pushXref (s : Draw2pdf) (objnum : Nat) : Draw2pdf :=
  { s with m_crossRefs := s.m_crossRefs ++ [⟨objnum, s.ftell s.clock⟩],
           clock := s.clock + 1 }

/-- `Draw2pdf::SetLineStyle` (src/draw2pdf.cpp lines 242-254): store the
style, then immediately emit the stroke-color operator (`RG`) and the
stroke-width operator (`w`). -/
def Draw2pdf.SetLineStyle (s : Draw2pdf) (style : PDFLineStyle) : Draw2pdf :=
  let s := { s with m_lineStyle := style }
  appendCS s
    (s.fmtD style.m_color.m_red ++ " " ++ s.fmtD style.m_color.m_green ++ " " ++
      s.fmtD style.m_color.m_blue ++ " RG\r\n" ++
      s.fmtD style.m_width ++ " w\r\n")

/-- `Draw2pdf::SetFillStyle` (src/draw2pdf.cpp lines 260-269): store the
style, then immediately emit the fill-color operator (`rg`). -/
def Draw2pdf.SetFillStyle (s : Draw2pdf) (style : PDFFillStyle) : Draw2pdf :=
  let s := { s with m_fillStyle := style }
  appendCS s
    (s.fmtD style.m_color.m_red ++ " " ++ s.fmtD style.m_color.m_green ++ " " ++
      s.fmtD style.m_color.m_blue ++ " rg\r\n")

/-- `Draw2pdf::SetTextStyle` (src/draw2pdf.cpp lines 275-278): store the
style only, nothing is emitted. -/
def Draw2pdf.SetTextStyle (s : Draw2pdf) (style : PDFTextStyle) : Draw2pdf :=
  { s with m_textStyle := style }

/-- The path emitted for a point list: move-to (`m`) for the first point,
line-to (`l`) for each subsequent point (the `first` flag loop shared by
`DrawPolyline` and `DrawPolygon`). -/
def polyPathString (fmtD : ℚ → String) (points : List PDFPoint) : String :=
  (points.foldl
    (fun (acc : String × Bool) point =>
      (acc.1 ++ fmtD point.x ++ " " ++ fmtD point.y ++ " " ++
        (if acc.2 then "m" else "l") ++ "\r\n", false))
    ("", true)).1

/-- `Draw2pdf::DrawPolyline` (src/draw2pdf.cpp lines 297-313). -/
def Draw2pdf.DrawPolyline (s : Draw2pdf) (points : List PDFPoint) : Draw2pdf :=
  if s.m_lineStyle.m_pattern = LinePattern.LINE_NULL then s
  else appendCS s (polyPathString s.fmtD points ++ "S\r\n")

/-- `Draw2pdf::DrawLine` (src/draw2pdf.cpp lines 284-291). -/
def Draw2pdf.DrawLine (s : Draw2pdf) (pt1 pt2 : PDFPoint) : Draw2pdf :=
  s.DrawPolyline [pt1, pt2]

/-- `Draw2pdf::DrawPolygon` (src/draw2pdf.cpp lines 320-359). -/
def Draw2pdf.DrawPolygon (s : Draw2pdf) (points : List PDFPoint) : Draw2pdf :=
  if s.m_lineStyle.m_pattern = LinePattern.LINE_NULL ∧
     s.m_fillStyle.m_pattern = FillPattern.FILL_NULL then s
  else
    let s := appendCS s (polyPathString s.fmtD points ++ "h\r\n")
    if s.m_lineStyle.m_pattern = LinePattern.LINE_SOLID ∧
       s.m_fillStyle.m_pattern = FillPattern.FILL_SOLID then
      appendCS s "B*\r\n"
    else if s.m_fillStyle.m_pattern = FillPattern.FILL_SOLID then
      appendCS s "f*\r\n"
    else if s.m_lineStyle.m_pattern = LinePattern.LINE_SOLID then
      appendCS s "S\r\n"
    else s

/-- `Draw2pdf::DrawRectangle` (src/draw2pdf.cpp lines 365-374). -/
def Draw2pdf.DrawRectangle (s : Draw2pdf) (box : PDFBox) : Draw2pdf :=
  s.DrawPolygon
    [⟨box.m_min.x, box.m_min.y⟩, ⟨box.m_max.x, box.m_min.y⟩,
     ⟨box.m_max.x, box.m_max.y⟩, ⟨box.m_min.x, box.m_max.y⟩]

/-- `Draw2pdf::DrawTextString` (src/draw2pdf.cpp lines 380-403); the
wide-to-narrow cast is the identity on the embedded text. -/
def Draw2pdf.DrawTextString (s : Draw2pdf) (point : PDFPoint) (text : String) : Draw2pdf :=
  appendCS s
    ("q\r\n" ++ "BT\r\n" ++
      "/F1 " ++ s.fmtD s.m_textStyle.m_height ++ " Tf\r\n" ++
      s.fmtD s.m_textStyle.m_color.m_red ++ " " ++ s.fmtD s.m_textStyle.m_color.m_green ++ " " ++
      s.fmtD s.m_textStyle.m_color.m_blue ++ " rg\r\n" ++
      s.fmtD point.x ++ " " ++ s.fmtD point.y ++ " Td\r\n" ++
      "(" ++ text ++ ") Tj\r\n" ++ "ET\r\n" ++ "Q\r\n")

/-- `Draw2pdf::DrawImage` (src/draw2pdf.cpp lines 409-448): queue the
image, reserve its object number, and emit the transform and `Do`
invocation of the resource named by the image's creation index. -/
def Draw2pdf.DrawImage (s : Draw2pdf) (image : PDFImage)
    (destX destY destWidth destHeight : ℚ) : Draw2pdf :=
  let index := s.m_images.length
  let s := { s with
    m_images := s.m_images ++ [{ image with m_objNum := s.m_objNumber }],
    m_objNumber := s.m_objNumber + 1 }
  appendCS s
    ("q\r\n" ++
      s.fmtD destWidth ++ " " ++ s.fmtD 0 ++ " " ++ s.fmtD 0 ++ " " ++
      s.fmtD destHeight ++ " " ++ s.fmtD destX ++ " " ++ s.fmtD destY ++ " cm\r\n" ++
      "/Im" ++ toString index ++ " Do\r\n" ++ "Q\r\n")

/-- `Draw2pdf::DoBeginPage` (src/draw2pdf.cpp lines 557-584): reserve the
page object number (recording its cross reference at the current file
position) and forward-reserve the page's contents and XObject-table
object numbers. -/
def Draw2pdf.DoBeginPage (s : Draw2pdf) : Draw2pdf :=
  let pageObjNumber := s.m_objNumber
  let s := { s with m_objNumber := s.m_objNumber + 1,
                    m_pageObjectNumbers := s.m_pageObjectNumbers ++ [pageObjNumber] }
  let s := pushXref s pageObjNumber
  let s := { s with m_contentsObjNumber := s.m_objNumber, m_objNumber := s.m_objNumber + 1 }
  { s with m_xobjectObjNumber := s.m_objNumber, m_objNumber := s.m_objNumber + 1 }

/-- `Draw2pdf::DoEndPage` (src/draw2pdf.cpp lines 590-640): write the
content-stream object and the XObject table (recording their cross
references), write every queued image object (`DoWriteImage` records one
cross reference per image), then clear the content stream and image list. -/
def Draw2pdf.DoEndPage (s : Draw2pdf) : Draw2pdf :=
  let s := pushXref s s.m_contentsObjNumber
  let s := pushXref s s.m_xobjectObjNumber
  let s := s.m_images.foldl (fun st image => pushXref st image.m_objNum) s
  { s with m_contentStream := "", m_images := [] }

/-- `Draw2pdf::NextPage` (src/draw2pdf.cpp lines 547-551). -/
def Draw2pdf.NextPage (s : Draw2pdf) : Draw2pdf :=
  s.DoEndPage.DoBeginPage

/-- `Draw2pdf::Open` (src/draw2pdf.cpp lines 133-163) starting from a
default-constructed (closed) instance: reserve the catalog and pages
object numbers, record the catalog's cross reference, and begin the
first page. -/
def OpenDoc (ftell : Nat → Nat) (fmtD : ℚ → String)
    (pageMinimumPoints pageMaximumPoints : PDFPoint)
    (compressImages compressContent : Bool) : Draw2pdf :=
  let s : Draw2pdf :=
    { ftell := ftell, clock := 0, fmtD := fmtD,
      m_pageMinimumPoints := pageMinimumPoints,
      m_pageMaximumPoints := pageMaximumPoints,
      m_lineStyle := ⟨LinePattern.LINE_SOLID, ⟨0, 0, 0, 1⟩, 0⟩,
      m_fillStyle := ⟨FillPattern.FILL_SOLID, ⟨0, 0, 0, 1⟩⟩,
      m_textStyle := ⟨10, ⟨0, 0, 0, 1⟩⟩,
      m_crossRefs := [], m_objNumber := 1,
      m_catalogObjNumber := 0, m_pagesObjNumber := 0,
      m_contentsObjNumber := 0, m_xobjectObjNumber := 0,
      m_pageObjectNumbers := [], m_contentStream := "",
      m_images := [],
      m_compressImages := compressImages, m_compressContent := compressContent }
  let s := { s with m_catalogObjNumber := s.m_objNumber, m_objNumber := s.m_objNumber + 1 }
  let s := { s with m_pagesObjNumber := s.m_objNumber, m_objNumber := s.m_objNumber + 1 }
  let s := pushXref s s.m_catalogObjNumber
  s.DoBeginPage

/-- The comparison `std::sort` is given in `Draw2pdf::Close`
(ordering cross references by object number). -/
def xrefLE (a b : PDFCrossRef) : Prop := a.m_objnum ≤ b.m_objnum

instance : DecidableRel xrefLE := fun a b => Nat.decLe a.m_objnum b.m_objnum

instance : IsTotal PDFCrossRef xrefLE := ⟨fun a b => Nat.le_total a.m_objnum b.m_objnum⟩

instance : IsTrans PDFCrossRef xrefLE := ⟨fun _ _ _ h h' => Nat.le_trans h h'⟩

/-- The `std::sort` call of `Draw2pdf::Close`: sort the cross-reference
records by object number (the object numbers are distinct, so any sort
produces the same list). -/
def sortXrefs (l : List PDFCrossRef) : List PDFCrossRef :=
  List.insertionSort xrefLE l

/-- `Draw2pdf::Close` (src/draw2pdf.cpp lines 168-236), projected to the
cross-reference table it writes: end the last page, record the Pages
object's cross reference, sort the table by object number, and declare
`m_crossRefs.size() + 1` entries (the extra one is the fixed dummy free
entry 0) both on the `xref` header line and as the trailer `/Size`. -/
def CloseDoc (s : Draw2pdf) : List PDFCrossRef × Nat :=
  let s := s.DoEndPage
  let s := pushXref s s.m_pagesObjNumber
  (sortXrefs s.m_crossRefs, s.m_crossRefs.length + 1)

/-- One drawing-phase call on an open document (everything the public
interface allows between `Open` and `Close`). -/
inductive DocOp where
  | setLineStyle (style : PDFLineStyle)
  | setFillStyle (style : PDFFillStyle)
  | setTextStyle (style : PDFTextStyle)
  | drawLine (pt1 pt2 : PDFPoint)
  | drawPolyline (points : List PDFPoint)
  | drawPolygon (points : List PDFPoint)
  | drawRectangle (box : PDFBox)
  | drawTextString (point : PDFPoint) (text : String)
  | drawImage (image : PDFImage) (destX destY destWidth destHeight : ℚ)
  | nextPage

/-- Apply one drawing-phase call. -/
def applyOp (s : Draw2pdf) : DocOp → Draw2pdf
  | DocOp.setLineStyle style => s.SetLineStyle style
  | DocOp.setFillStyle style => s.SetFillStyle style
  | DocOp.setTextStyle style => s.SetTextStyle style
  | DocOp.drawLine pt1 pt2 => s.DrawLine pt1 pt2
  | DocOp.drawPolyline points => s.DrawPolyline points
  | DocOp.drawPolygon points => s.DrawPolygon points
  | DocOp.drawRectangle box => s.DrawRectangle box
  | DocOp.drawTextString point text => s.DrawTextString point text
  | DocOp.drawImage image a b c d => s.DrawImage image a b c d
  | DocOp.nextPage => s.NextPage

/-- Run a sequence of drawing-phase calls. -/
def runOps (s : Draw2pdf) (ops : List DocOp) : Draw2pdf :=
  ops.foldl applyOp s

/-- Proof infrastructure: the multiset of object numbers that either have a
cross-reference record already or are reserved and pending one (the Pages
object, the current page's contents and XObject-table objects, and the
queued images). -/
def allocatedView (s : Draw2pdf) : Multiset Nat :=
  ↑(s.m_crossRefs.map PDFCrossRef.m_objnum) +
    ({s.m_pagesObjNumber} + {s.m_contentsObjNumber} + {s.m_xobjectObjNumber} +
      ↑(s.m_images.map PDFImage.m_objNum))

/-- Proof infrastructure: every object number `1 .. m_objNumber - 1` handed
out so far is accounted for exactly once. -/
def AllocInv (s : Draw2pdf) : Prop :=
  allocatedView s = ↑(List.range' 1 (s.m_objNumber - 1)) ∧ 1 ≤ s.m_objNumber

/-- A concrete open document used to evaluate the drawing claims. -/
def sampleDoc : Draw2pdf :=
  OpenDoc (fun _ => 0) (fun _ => "0.0") ⟨0, 0⟩ ⟨612, 792⟩ false false

/-! ## Theorems -/

/-! helper arithmetic -/

theorem extract_byte {a x m v : Nat} (hm : 0 < m) (hx : x < m) (hv : v = m * a + x)
    (ha : a < 256) : v / m % 256 = a := by
  subst hv
  rw [Nat.mul_add_div hm, Nat.div_eq_of_lt hx, Nat.add_zero, Nat.mod_eq_of_lt ha]

theorem extract_mid {hi b x m v : Nat} (hm : 0 < m) (hx : x < m)
    (hv : v = m * (256 * hi + b) + x) (hb : b < 256) : v / m % 256 = b := by
  subst hv
  rw [Nat.mul_add_div hm, Nat.div_eq_of_lt hx, Nat.add_zero, Nat.add_comm (256 * hi) b,
    Nat.add_mul_mod_self_left, Nat.mod_eq_of_lt hb]

/-! decodeCore stepping -/

theorem decodeCore_term (acc rest : List Nat) :
    decodeCore acc (126 :: rest) = decodeLastGroup acc := by
  simp [decodeCore]

theorem decodeCore_z (rest : List Nat) :
    decodeCore [] (122 :: rest) = 0 :: 0 :: 0 :: 0 :: decodeCore [] rest := by
  simp [decodeCore]

theorem decodeCore_step (acc : List Nat) (b : Nat) (rest : List Nat) (hb : b < 85)
    (hlen : acc.length + 1 ≠ 5) :
    decodeCore acc ((b + 33) :: rest) = decodeCore (acc ++ [b]) rest := by
  simp only [decodeCore]
  rw [if_neg (by omega), if_neg (by omega)]
  have h33 : b + 33 - 33 = b := by omega
  simp only [h33]
  rw [if_neg (by simp; omega)]

theorem decodeCore_last (acc : List Nat) (b : Nat) (rest : List Nat) (hb : b < 85)
    (hlen : acc.length = 4) :
    decodeCore acc ((b + 33) :: rest) =
      decodeGroup5 (digitsVal (acc ++ [b]) % 2 ^ 32) ++ decodeCore [] rest := by
  simp only [decodeCore]
  rw [if_neg (by omega), if_neg (by omega)]
  have h33 : b + 33 - 33 = b := by omega
  simp only [h33]
  rw [if_pos (by simp [hlen])]

/-! full-group decoding -/

theorem decode_full (t : Nat) (ht : t < 2 ^ 32) (rest : List Nat) :
    decodeCore [] (encodeTupleChars t 4 ++ rest) = decodeGroup5 t ++ decodeCore [] rest := by
  have d0 : t % 85 < 85 := Nat.mod_lt _ (by norm_num)
  have d1 : t / 85 % 85 < 85 := Nat.mod_lt _ (by norm_num)
  have d2 : t / 85 / 85 % 85 < 85 := Nat.mod_lt _ (by norm_num)
  have d3 : t / 85 / 85 / 85 % 85 < 85 := Nat.mod_lt _ (by norm_num)
  have d4 : t / 85 / 85 / 85 / 85 % 85 < 85 := Nat.mod_lt _ (by norm_num)
  simp only [encodeTupleChars, List.take, List.cons_append, List.nil_append]
  rw [decodeCore_step _ _ _ d4 (by simp), decodeCore_step _ _ _ d3 (by simp),
    decodeCore_step _ _ _ d2 (by simp), decodeCore_step _ _ _ d1 (by simp),
    decodeCore_last _ _ _ d0 (by simp)]
  have hval : digitsVal
      ([] ++ [t / 85 / 85 / 85 / 85 % 85] ++ [t / 85 / 85 / 85 % 85] ++ [t / 85 / 85 % 85] ++
        [t / 85 % 85] ++ [t % 85]) = t := by
    simp [digitsVal]
    omega
  rw [hval, Nat.mod_eq_of_lt ht]

/-! lor of disjoint byte fields -/

theorem lor_disjoint (i : Nat) {x y : Nat} (q : Nat) (hx : x = 2 ^ i * q) (hy : y < 2 ^ i) :
    x ||| y = x + y := by
  subst hx
  exact (Nat.mul_add_lt_is_or hy q).symm

theorem pack_a (a : Nat) : (0 : Nat) ||| (a <<< 24) = a * 16777216 := by
  rw [Nat.zero_or, Nat.shiftLeft_eq]

theorem pack_ab (a b : Nat) (hb : b < 256) :
    (a * 16777216) ||| (b <<< 16) = a * 16777216 + b * 65536 := by
  rw [Nat.shiftLeft_eq, show (2:Nat) ^ 16 = 65536 by norm_num]
  exact lor_disjoint 24 a (by norm_num [Nat.mul_comm]) (by norm_num; omega)

theorem pack_abc (a b c : Nat) (hc : c < 256) :
    (a * 16777216 + b * 65536) ||| (c <<< 8) = a * 16777216 + b * 65536 + c * 256 := by
  rw [Nat.shiftLeft_eq, show (2:Nat) ^ 8 = 256 by norm_num]
  refine lor_disjoint 16 (256 * a + b) (by norm_num; ring) (by norm_num; omega)

theorem pack_abcd (a b c d : Nat) (hd : d < 256) :
    (a * 16777216 + b * 65536 + c * 256) ||| d = a * 16777216 + b * 65536 + c * 256 + d := by
  refine lor_disjoint 8 (65536 * a + 256 * b + c) (by norm_num; ring) (by norm_num; omega)

/-! leftover-group decoding -/

theorem decode_tail1 (a : Nat) (ha : a < 256) :
    decodeCore [] (encodeTupleChars (a * 16777216) 1 ++ [126, 62]) = [a] := by
  obtain ⟨t, hT⟩ : ∃ t, a * 16777216 = t := ⟨_, rfl⟩
  rw [hT]
  set d4 := t / 85 / 85 / 85 / 85 % 85 with h4
  set d3 := t / 85 / 85 / 85 % 85 with h3
  have hd4 : d4 < 85 := Nat.mod_lt _ (by norm_num)
  have hd3 : d3 < 85 := Nat.mod_lt _ (by norm_num)
  have hchars : encodeTupleChars t 1 = [d4 + 33, d3 + 33] := by
    simp [encodeTupleChars, List.take]
  rw [hchars]
  simp only [List.cons_append, List.nil_append]
  rw [decodeCore_step _ _ _ hd4 (by simp), decodeCore_step _ _ _ hd3 (by simp),
    decodeCore_term]
  simp only [List.nil_append, List.singleton_append]
  have hlast : decodeLastGroup [d4, d3] =
      (decodeGroup5 (digitsVal [d4, d3, 84, 84, 84] % 2 ^ 32)).take 1 := by
    simp [decodeLastGroup, List.replicate]
  rw [hlast]
  have ht5 : t < 4437053125 := by omega
  have hq : d4 * 85 + d3 = t / 614125 := by clear hT; omega
  have hdm := Nat.div_add_mod t 614125
  have hmod : t % 614125 < 614125 := Nat.mod_lt _ (by norm_num)
  have hval : digitsVal [d4, d3, 84, 84, 84] = t / 614125 * 614125 + 614124 := by
    simp only [digitsVal, List.foldl]
    clear hT
    omega
  rw [hval]
  have hv32 : t / 614125 * 614125 + 614124 < 2 ^ 32 := by norm_num; omega
  rw [Nat.mod_eq_of_lt hv32]
  simp only [decodeGroup5, List.take]
  rw [show (2:Nat) ^ 24 = 16777216 by norm_num]
  rw [extract_byte (show 0 < 16777216 by norm_num)
    (show 614124 - t % 614125 < 16777216 by omega)
    (show t / 614125 * 614125 + 614124 = 16777216 * a + (614124 - t % 614125) by omega) ha]

theorem decode_tail2 (a b : Nat) (ha : a < 256) (hb : b < 256) :
    decodeCore [] (encodeTupleChars (a * 16777216 + b * 65536) 2 ++ [126, 62]) = [a, b] := by
  obtain ⟨t, hT⟩ : ∃ t, a * 16777216 + b * 65536 = t := ⟨_, rfl⟩
  rw [hT]
  set d4 := t / 85 / 85 / 85 / 85 % 85 with h4
  set d3 := t / 85 / 85 / 85 % 85 with h3
  set d2 := t / 85 / 85 % 85 with h2
  have hd4 : d4 < 85 := Nat.mod_lt _ (by norm_num)
  have hd3 : d3 < 85 := Nat.mod_lt _ (by norm_num)
  have hd2 : d2 < 85 := Nat.mod_lt _ (by norm_num)
  have hchars : encodeTupleChars t 2 = [d4 + 33, d3 + 33, d2 + 33] := by
    simp [encodeTupleChars, List.take]
  rw [hchars]
  simp only [List.cons_append, List.nil_append]
  rw [decodeCore_step _ _ _ hd4 (by simp), decodeCore_step _ _ _ hd3 (by simp),
    decodeCore_step _ _ _ hd2 (by simp), decodeCore_term]
  simp only [List.nil_append, List.singleton_append, List.cons_append]
  have hlast : decodeLastGroup [d4, d3, d2] =
      (decodeGroup5 (digitsVal [d4, d3, d2, 84, 84] % 2 ^ 32)).take 2 := by
    simp [decodeLastGroup, List.replicate]
  rw [hlast]
  have ht5 : t < 4437053125 := by omega
  have hq : (d4 * 85 + d3) * 85 + d2 = t / 7225 := by clear hT; omega
  have hdm := Nat.div_add_mod t 7225
  have hmod : t % 7225 < 7225 := Nat.mod_lt _ (by norm_num)
  have hval : digitsVal [d4, d3, d2, 84, 84] = t / 7225 * 7225 + 7224 := by
    simp only [digitsVal, List.foldl]
    clear hT
    omega
  rw [hval]
  have hv32 : t / 7225 * 7225 + 7224 < 2 ^ 32 := by norm_num; omega
  rw [Nat.mod_eq_of_lt hv32]
  simp only [decodeGroup5, List.take]
  rw [show (2:Nat) ^ 24 = 16777216 by norm_num, show (2:Nat) ^ 16 = 65536 by norm_num]
  rw [extract_byte (show 0 < 16777216 by norm_num)
    (show b * 65536 + 7224 - t % 7225 < 16777216 by omega)
    (show t / 7225 * 7225 + 7224 = 16777216 * a + (b * 65536 + 7224 - t % 7225) by omega) ha]
  rw [extract_mid (show 0 < 65536 by norm_num)
    (show 7224 - t % 7225 < 65536 by omega)
    (show t / 7225 * 7225 + 7224 = 65536 * (256 * a + b) + (7224 - t % 7225) by omega) hb]

theorem decode_tail3 (a b c : Nat) (ha : a < 256) (hb : b < 256) (hc : c < 256) :
    decodeCore [] (encodeTupleChars (a * 16777216 + b * 65536 + c * 256) 3 ++ [126, 62]) =
      [a, b, c] := by
  obtain ⟨t, hT⟩ : ∃ t, a * 16777216 + b * 65536 + c * 256 = t := ⟨_, rfl⟩
  rw [hT]
  set d4 := t / 85 / 85 / 85 / 85 % 85 with h4
  set d3 := t / 85 / 85 / 85 % 85 with h3
  set d2 := t / 85 / 85 % 85 with h2
  set d1 := t / 85 % 85 with h1
  have hd4 : d4 < 85 := Nat.mod_lt _ (by norm_num)
  have hd3 : d3 < 85 := Nat.mod_lt _ (by norm_num)
  have hd2 : d2 < 85 := Nat.mod_lt _ (by norm_num)
  have hd1 : d1 < 85 := Nat.mod_lt _ (by norm_num)
  have hchars : encodeTupleChars t 3 = [d4 + 33, d3 + 33, d2 + 33, d1 + 33] := by
    simp [encodeTupleChars, List.take]
  rw [hchars]
  simp only [List.cons_append, List.nil_append]
  rw [decodeCore_step _ _ _ hd4 (by simp), decodeCore_step _ _ _ hd3 (by simp),
    decodeCore_step _ _ _ hd2 (by simp), decodeCore_step _ _ _ hd1 (by simp),
    decodeCore_term]
  simp only [List.nil_append, List.singleton_append, List.cons_append]
  have hlast : decodeLastGroup [d4, d3, d2, d1] =
      (decodeGroup5 (digitsVal [d4, d3, d2, d1, 84] % 2 ^ 32)).take 3 := by
    simp [decodeLastGroup, List.replicate]
  rw [hlast]
  have ht5 : t < 4437053125 := by omega
  have hq : ((d4 * 85 + d3) * 85 + d2) * 85 + d1 = t / 85 := by clear hT; omega
  have hdm := Nat.div_add_mod t 85
  have hmod : t % 85 < 85 := Nat.mod_lt _ (by norm_num)
  have hval : digitsVal [d4, d3, d2, d1, 84] = t / 85 * 85 + 84 := by
    simp only [digitsVal, List.foldl]
    clear hT
    omega
  rw [hval]
  have hv32 : t / 85 * 85 + 84 < 2 ^ 32 := by norm_num; omega
  rw [Nat.mod_eq_of_lt hv32]
  simp only [decodeGroup5, List.take]
  rw [show (2:Nat) ^ 24 = 16777216 by norm_num, show (2:Nat) ^ 16 = 65536 by norm_num,
    show (2:Nat) ^ 8 = 256 by norm_num]
  rw [extract_byte (show 0 < 16777216 by norm_num)
    (show b * 65536 + c * 256 + 84 - t % 85 < 16777216 by omega)
    (show t / 85 * 85 + 84 = 16777216 * a + (b * 65536 + c * 256 + 84 - t % 85) by omega) ha]
  rw [extract_mid (show 0 < 65536 by norm_num)
    (show c * 256 + 84 - t % 85 < 65536 by omega)
    (show t / 85 * 85 + 84 = 65536 * (256 * a + b) + (c * 256 + 84 - t % 85) by omega) hb]
  rw [extract_mid (show 0 < 256 by norm_num)
    (show 84 - t % 85 < 256 by omega)
    (show t / 85 * 85 + 84 = 256 * (256 * (256 * a + b) + c) + (84 - t % 85) by omega) hc]

/-! stripping line breaks from the encoder output -/

theorem stripCRLF_append (l1 l2 : List Nat) :
    stripCRLF (l1 ++ l2) = stripCRLF l1 ++ stripCRLF l2 := by
  simp [stripCRLF, List.filter_append]

theorem stripCRLF_data (c : Nat) (h : 33 ≤ c) : stripCRLF [c] = [c] := by
  have hb : (!(c == 13) && !(c == 10)) = true := by
    simp only [Bool.and_eq_true, Bool.not_eq_true', beq_eq_false_iff_ne]
    omega
  simp [stripCRLF, List.filter, hb]

theorem stripCRLF_crlf : stripCRLF [13, 10] = [] := by decide

theorem pushChar_strip (s : Ascii85Encoder) (c : Nat) (h : 33 ≤ c) :
    stripCRLF (pushChar s c).m_output = stripCRLF s.m_output ++ [c] ∧
    (pushChar s c).m_tuple = s.m_tuple ∧ (pushChar s c).m_count = s.m_count := by
  unfold pushChar
  split <;>
    refine ⟨?_, rfl, rfl⟩
  · rw [show [c, 13, 10] = [c] ++ [13, 10] by rfl, ← List.append_assoc, stripCRLF_append,
      stripCRLF_append, stripCRLF_data c h, stripCRLF_crlf, List.append_nil]
  · rw [stripCRLF_append, stripCRLF_data c h]

theorem foldl_pushChar_strip (cs : List Nat) : ∀ s : Ascii85Encoder, (∀ c ∈ cs, 33 ≤ c) →
    stripCRLF (cs.foldl pushChar s).m_output = stripCRLF s.m_output ++ cs ∧
    (cs.foldl pushChar s).m_tuple = s.m_tuple ∧
    (cs.foldl pushChar s).m_count = s.m_count := by
  induction cs with
  | nil => intro s _; simp
  | cons c rest ih =>
    intro s hall
    have hc : 33 ≤ c := hall c (by simp)
    have hp := pushChar_strip s c hc
    have hr := ih (pushChar s c) (fun x hx => hall x (by simp [hx]))
    simp only [List.foldl_cons]
    refine ⟨?_, ?_, ?_⟩
    · rw [hr.1, hp.1, List.append_assoc]
      rfl
    · rw [hr.2.1, hp.2.1]
    · rw [hr.2.2, hp.2.2]

theorem encodeTupleChars_bound (t k : Nat) : ∀ c ∈ encodeTupleChars t k, 33 ≤ c ∧ c ≤ 117 := by
  intro c hc
  simp only [encodeTupleChars] at hc
  have hm := List.mem_of_mem_take hc
  simp only [List.mem_cons, List.not_mem_nil, or_false] at hm
  rcases hm with rfl | rfl | rfl | rfl | rfl <;> omega

theorem EncodeTuple_strip (s : Ascii85Encoder) (t k : Nat) :
    stripCRLF (s.EncodeTuple t k).m_output = stripCRLF s.m_output ++ encodeTupleChars t k ∧
    (s.EncodeTuple t k).m_tuple = s.m_tuple ∧
    (s.EncodeTuple t k).m_count = s.m_count :=
  foldl_pushChar_strip (encodeTupleChars t k) s
    (fun c hc => (encodeTupleChars_bound t k c hc).1)

/-! the encoder run, with its final flush, emits exactly the group encoding -/

theorem encode_run (data : List Nat) : ∀ s : Ascii85Encoder,
    stripCRLF (if 0 < (data.foldl Ascii85Encoder.EncodeByte s).m_count then
        ((data.foldl Ascii85Encoder.EncodeByte s).EncodeTuple
          (data.foldl Ascii85Encoder.EncodeByte s).m_tuple
          (data.foldl Ascii85Encoder.EncodeByte s).m_count).m_output
      else (data.foldl Ascii85Encoder.EncodeByte s).m_output)
      = stripCRLF s.m_output ++ encodeCoreFlush s.m_tuple s.m_count data := by
  induction data with
  | nil =>
    intro s
    simp only [List.foldl_nil, encodeCoreFlush]
    split
    · rw [(EncodeTuple_strip s s.m_tuple s.m_count).1]
    · simp
  | cons c rest ih =>
    intro s
    obtain ⟨out, col, tup, cnt⟩ := s
    simp only [List.foldl_cons]
    match cnt with
    | 0 =>
      rw [show Ascii85Encoder.EncodeByte ⟨out, col, tup, 0⟩ c =
        ⟨out, col, tup ||| (c <<< 24), 1⟩ from rfl]
      exact ih ⟨out, col, tup ||| (c <<< 24), 1⟩
    | 1 =>
      rw [show Ascii85Encoder.EncodeByte ⟨out, col, tup, 1⟩ c =
        ⟨out, col, tup ||| (c <<< 16), 2⟩ from rfl]
      exact ih ⟨out, col, tup ||| (c <<< 16), 2⟩
    | 2 =>
      rw [show Ascii85Encoder.EncodeByte ⟨out, col, tup, 2⟩ c =
        ⟨out, col, tup ||| (c <<< 8), 3⟩ from rfl]
      exact ih ⟨out, col, tup ||| (c <<< 8), 3⟩
    | n + 3 =>
      by_cases ht : tup ||| c = 0
      · have hred : Ascii85Encoder.EncodeByte ⟨out, col, tup, n + 3⟩ c =
            { pushChar ⟨out, col, tup, n + 3⟩ 122 with m_tuple := 0, m_count := 0 } := by
          simp only [Ascii85Encoder.EncodeByte, ht, if_pos]
        rw [hred]
        have hih := ih { pushChar ⟨out, col, tup, n + 3⟩ 122 with m_tuple := 0, m_count := 0 }
        rw [hih]
        have hp := pushChar_strip ⟨out, col, tup, n + 3⟩ 122 (by omega)
        show stripCRLF (pushChar ⟨out, col, tup, n + 3⟩ 122).m_output ++
            encodeCoreFlush 0 0 rest = _
        rw [hp.1]
        simp only [encodeCoreFlush, ht, if_pos]
        simp [List.append_assoc]
      · have hred : Ascii85Encoder.EncodeByte ⟨out, col, tup, n + 3⟩ c =
            { Ascii85Encoder.EncodeTuple ⟨out, col, tup, n + 3⟩ (tup ||| c) 4 with
              m_tuple := 0, m_count := 0 } := by
          simp only [Ascii85Encoder.EncodeByte, ht, if_neg]
          simp [ht]
        rw [hred]
        have hih := ih { Ascii85Encoder.EncodeTuple ⟨out, col, tup, n + 3⟩ (tup ||| c) 4 with
          m_tuple := 0, m_count := 0 }
        rw [hih]
        have hp := EncodeTuple_strip ⟨out, col, tup, n + 3⟩ (tup ||| c) 4
        show stripCRLF (Ascii85Encoder.EncodeTuple ⟨out, col, tup, n + 3⟩ (tup ||| c) 4).m_output ++
            encodeCoreFlush 0 0 rest = _
        rw [hp.1]
        simp only [encodeCoreFlush, ht, if_neg]
        simp [List.append_assoc, ht]

theorem stripCRLF_term : stripCRLF [126, 62, 13, 10] = [126, 62] := by decide

theorem strip_pad (P : Prop) [Decidable P] (s : Ascii85Encoder) :
    stripCRLF ((if P then { s with m_output := s.m_output ++ [13, 10] } else s).m_output) =
      stripCRLF s.m_output := by
  split
  · rw [show ({ s with m_output := s.m_output ++ [13, 10] } : Ascii85Encoder).m_output =
      s.m_output ++ [13, 10] from rfl, stripCRLF_append, stripCRLF_crlf, List.append_nil]
  · rfl

theorem strip_encode (data : List Nat) (h : data ≠ []) :
    stripCRLF (EncodeToAscii85 data) = encodeCoreFlush 0 0 data ++ [126, 62] := by
  have hlen : ¬ data.length < 1 := by have := List.length_pos.mpr h; omega
  unfold EncodeToAscii85
  rw [if_neg hlen]
  rw [stripCRLF_append, stripCRLF_term]
  congr 1
  rw [strip_pad]
  rw [apply_ite Ascii85Encoder.m_output]
  have := encode_run data ⟨[], 0, 0, 0⟩
  simpa using this

theorem decode_coreFlush : ∀ (n : Nat) (data : List Nat), data.length ≤ n →
    (∀ x ∈ data, x < 256) →
    decodeCore [] (encodeCoreFlush 0 0 data ++ [126, 62]) = data := by
  intro n
  induction n with
  | zero =>
    intro data hlen _
    have hnil : data = [] := List.length_eq_zero.mp (by omega)
    subst hnil
    decide
  | succ n ih =>
    intro data hlen hbound
    rcases data with _ | ⟨a, _ | ⟨b, _ | ⟨c, _ | ⟨d, rest⟩⟩⟩⟩
    · decide
    · have ha : a < 256 := hbound a (by simp)
      have hred : encodeCoreFlush 0 0 [a] = encodeTupleChars ((0 : Nat) ||| (a <<< 24)) 1 := rfl
      rw [hred, pack_a]
      exact decode_tail1 a ha
    · have ha : a < 256 := hbound a (by simp)
      have hb : b < 256 := hbound b (by simp)
      have hred : encodeCoreFlush 0 0 [a, b] =
        encodeTupleChars (((0 : Nat) ||| (a <<< 24)) ||| (b <<< 16)) 2 := rfl
      rw [hred, pack_a, pack_ab a b hb]
      exact decode_tail2 a b ha hb
    · have ha : a < 256 := hbound a (by simp)
      have hb : b < 256 := hbound b (by simp)
      have hc : c < 256 := hbound c (by simp)
      have hred : encodeCoreFlush 0 0 [a, b, c] =
        encodeTupleChars ((((0 : Nat) ||| (a <<< 24)) ||| (b <<< 16)) ||| (c <<< 8)) 3 := rfl
      rw [hred, pack_a, pack_ab a b hb, pack_abc a b c hc]
      exact decode_tail3 a b c ha hb hc
    · have ha : a < 256 := hbound a (by simp)
      have hb : b < 256 := hbound b (by simp)
      have hc : c < 256 := hbound c (by simp)
      have hd : d < 256 := hbound d (by simp)
      have hrest : ∀ x ∈ rest, x < 256 := fun x hx => hbound x (by simp [hx])
      have hlen' : rest.length ≤ n := by simp at hlen; omega
      have hred : encodeCoreFlush 0 0 (a :: b :: c :: d :: rest) =
        (if ((((0 : Nat) ||| (a <<< 24)) ||| (b <<< 16)) ||| (c <<< 8)) ||| d = 0 then [122]
         else encodeTupleChars (((((0 : Nat) ||| (a <<< 24)) ||| (b <<< 16)) ||| (c <<< 8)) ||| d) 4)
          ++ encodeCoreFlush 0 0 rest := rfl
      rw [hred, pack_a, pack_ab a b hb, pack_abc a b c hc, pack_abcd a b c d hd]
      by_cases hz : a * 16777216 + b * 65536 + c * 256 + d = 0
      · rw [if_pos hz, List.append_assoc, List.singleton_append, decodeCore_z,
          ih rest hlen' hrest]
        have ha0 : a = 0 := by omega
        have hb0 : b = 0 := by omega
        have hc0 : c = 0 := by omega
        have hd0 : d = 0 := by omega
        rw [ha0, hb0, hc0, hd0]
      · rw [if_neg hz, List.append_assoc,
          decode_full (a * 16777216 + b * 65536 + c * 256 + d) (by omega) _,
          ih rest hlen' hrest]
        have hg : decodeGroup5 (a * 16777216 + b * 65536 + c * 256 + d) = [a, b, c, d] := by
          simp only [decodeGroup5,
            show (2:Nat) ^ 24 = 16777216 by norm_num,
            show (2:Nat) ^ 16 = 65536 by norm_num,
            show (2:Nat) ^ 8 = 256 by norm_num,
            List.cons.injEq, and_true]
          refine ⟨by omega, by omega, by omega, by omega⟩
        rw [hg]
        rfl

theorem count122_strip (l : List Nat) : (stripCRLF l).count 122 = l.count 122 :=
  List.count_filter (by decide)

theorem not_mem_122_tupleChars (t k : Nat) : 122 ∉ encodeTupleChars t k := by
  intro hmem
  have := (encodeTupleChars_bound t k 122 hmem).2
  omega

theorem count122_coreFlush : ∀ (n : Nat) (data : List Nat), data.length ≤ n →
    (∀ x ∈ data, x < 256) →
    (encodeCoreFlush 0 0 data).count 122 = zeroGroupCount data := by
  intro n
  induction n with
  | zero =>
    intro data hlen _
    have hnil : data = [] := List.length_eq_zero.mp (by omega)
    subst hnil
    decide
  | succ n ih =>
    intro data hlen hbound
    rcases data with _ | ⟨a, _ | ⟨b, _ | ⟨c, _ | ⟨d, rest⟩⟩⟩⟩
    · decide
    · rw [show encodeCoreFlush 0 0 [a] = encodeTupleChars ((0 : Nat) ||| (a <<< 24)) 1 from rfl]
      rw [List.count_eq_zero_of_not_mem (not_mem_122_tupleChars _ _)]
      rfl
    · rw [show encodeCoreFlush 0 0 [a, b] =
        encodeTupleChars (((0 : Nat) ||| (a <<< 24)) ||| (b <<< 16)) 2 from rfl]
      rw [List.count_eq_zero_of_not_mem (not_mem_122_tupleChars _ _)]
      rfl
    · rw [show encodeCoreFlush 0 0 [a, b, c] =
        encodeTupleChars ((((0 : Nat) ||| (a <<< 24)) ||| (b <<< 16)) ||| (c <<< 8)) 3 from rfl]
      rw [List.count_eq_zero_of_not_mem (not_mem_122_tupleChars _ _)]
      rfl
    · have hb : b < 256 := hbound b (by simp)
      have hc : c < 256 := hbound c (by simp)
      have hd : d < 256 := hbound d (by simp)
      have hrest : ∀ x ∈ rest, x < 256 := fun x hx => hbound x (by simp [hx])
      have hlen' : rest.length ≤ n := by simp at hlen; omega
      have hred : encodeCoreFlush 0 0 (a :: b :: c :: d :: rest) =
        (if ((((0 : Nat) ||| (a <<< 24)) ||| (b <<< 16)) ||| (c <<< 8)) ||| d = 0 then [122]
         else encodeTupleChars (((((0 : Nat) ||| (a <<< 24)) ||| (b <<< 16)) ||| (c <<< 8)) ||| d) 4)
          ++ encodeCoreFlush 0 0 rest := rfl
      rw [hred, pack_a, pack_ab a b hb, pack_abc a b c hc, pack_abcd a b c d hd,
        List.count_append, ih rest hlen' hrest]
      have hzero : a * 16777216 + b * 65536 + c * 256 + d = 0 ↔
          a = 0 ∧ b = 0 ∧ c = 0 ∧ d = 0 := by omega
      rw [show zeroGroupCount (a :: b :: c :: d :: rest) =
        (if a = 0 ∧ b = 0 ∧ c = 0 ∧ d = 0 then 1 else 0) + zeroGroupCount rest from rfl]
      by_cases hz : a = 0 ∧ b = 0 ∧ c = 0 ∧ d = 0
      · rw [if_pos (hzero.mpr hz), if_pos hz]
        rfl
      · rw [if_neg (fun hh => hz (hzero.mp hh)), if_neg hz,
          List.count_eq_zero_of_not_mem (not_mem_122_tupleChars _ _)]

/-- C2: round trip and the z-shortcut discipline. -/
theorem claim_C2_ascii85_roundtrip (data : List Nat) (h : ∀ x ∈ data, x < 256) :
    DecodeAscii85 (EncodeToAscii85 data) = data ∧
    (EncodeToAscii85 data).count 122 = zeroGroupCount data := by
  constructor
  · rcases eq_or_ne data [] with rfl | hne
    · decide
    · unfold DecodeAscii85
      rw [strip_encode data hne]
      exact decode_coreFlush data.length data le_rfl h
  · rcases eq_or_ne data [] with rfl | hne
    · decide
    · rw [← count122_strip, strip_encode data hne, List.count_append,
        count122_coreFlush data.length data le_rfl h]
      rfl

theorem claim_C2_witness :
    DecodeAscii85 (EncodeToAscii85 [0, 0, 0, 0, 1, 2]) = [0, 0, 0, 0, 1, 2] ∧
    (EncodeToAscii85 [0, 0, 0, 0, 1, 2]).count 122 = zeroGroupCount [0, 0, 0, 0, 1, 2] :=
  claim_C2_ascii85_roundtrip [0, 0, 0, 0, 1, 2] (by decide)

/-! line structure of the encoder output (for the line-length claim) -/


theorem lineInv_pushChar (s : Ascii85Encoder) (c : Nat) (h13 : c ≠ 13) (h10 : c ≠ 10)
    (h : LineInv s.m_output s.m_column) :
    LineInv (pushChar s c).m_output (pushChar s c).m_column := by
  obtain ⟨lines, rest, hout, hlines, hrest, hlen, hcol⟩ := h
  unfold pushChar
  split
  · next hge =>
    show LineInv (s.m_output ++ [c, 13, 10]) 0
    refine ⟨lines ++ [rest ++ [c]], [], ?_, ?_, ?_, rfl, by omega⟩
    · rw [hout]
      simp [List.append_assoc]
    · intro l hl
      rcases List.mem_append.mp hl with hl | hl
      · exact hlines l hl
      · simp only [List.mem_singleton] at hl
        subst hl
        constructor
        · intro x hx
          rcases List.mem_append.mp hx with hx | hx
          · exact hrest x hx
          · simp only [List.mem_singleton] at hx
            subst hx
            exact ⟨h13, h10⟩
        · have hw : lineWidth ≤ s.m_column := hge
          unfold lineWidth at hw
          simp only [List.length_append, List.length_singleton]
          omega
    · intro x hx
      simp at hx
  · next hlt =>
    show LineInv (s.m_output ++ [c]) (s.m_column + 1)
    refine ⟨lines, rest ++ [c], ?_, hlines, ?_, ?_, ?_⟩
    · rw [hout, List.append_assoc]
    · intro x hx
      rcases List.mem_append.mp hx with hx | hx
      · exact hrest x hx
      · simp only [List.mem_singleton] at hx
        subst hx
        exact ⟨h13, h10⟩
    · simp [hlen]
    · have hw : ¬ lineWidth ≤ s.m_column := hlt
      unfold lineWidth at hw
      omega

theorem lineInv_foldl (cs : List Nat) : ∀ s : Ascii85Encoder,
    (∀ c ∈ cs, 33 ≤ c) → LineInv s.m_output s.m_column →
    LineInv (cs.foldl pushChar s).m_output (cs.foldl pushChar s).m_column := by
  induction cs with
  | nil => intro s _ h; exact h
  | cons c rest ih =>
    intro s hall h
    have hc : 33 ≤ c := hall c (by simp)
    exact ih (pushChar s c) (fun x hx => hall x (by simp [hx]))
      (lineInv_pushChar s c (by omega) (by omega) h)

theorem lineInv_EncodeTuple (s : Ascii85Encoder) (t k : Nat)
    (h : LineInv s.m_output s.m_column) :
    LineInv (s.EncodeTuple t k).m_output (s.EncodeTuple t k).m_column :=
  lineInv_foldl (encodeTupleChars t k) s
    (fun c hc => (encodeTupleChars_bound t k c hc).1) h

theorem lineInv_EncodeByte (s : Ascii85Encoder) (c : Nat)
    (h : LineInv s.m_output s.m_column) :
    LineInv (s.EncodeByte c).m_output (s.EncodeByte c).m_column := by
  obtain ⟨out, col, tup, cnt⟩ := s
  match cnt with
  | 0 => exact h
  | 1 => exact h
  | 2 => exact h
  | n + 3 =>
    by_cases ht : tup ||| c = 0
    · have hred : Ascii85Encoder.EncodeByte ⟨out, col, tup, n + 3⟩ c =
          { pushChar ⟨out, col, tup, n + 3⟩ 122 with m_tuple := 0, m_count := 0 } := by
        simp only [Ascii85Encoder.EncodeByte, ht, if_pos]
      rw [hred]
      exact lineInv_pushChar _ 122 (by omega) (by omega) h
    · have hred : Ascii85Encoder.EncodeByte ⟨out, col, tup, n + 3⟩ c =
          { Ascii85Encoder.EncodeTuple ⟨out, col, tup, n + 3⟩ (tup ||| c) 4 with
            m_tuple := 0, m_count := 0 } := by
        simp only [Ascii85Encoder.EncodeByte, ht, if_neg]
        simp [ht]
      rw [hred]
      exact lineInv_EncodeTuple _ _ _ h

theorem lineInv_run (data : List Nat) : ∀ s : Ascii85Encoder,
    LineInv s.m_output s.m_column →
    LineInv (data.foldl Ascii85Encoder.EncodeByte s).m_output
      (data.foldl Ascii85Encoder.EncodeByte s).m_column := by
  induction data with
  | nil => intro s h; exact h
  | cons c rest ih =>
    intro s h
    exact ih (s.EncodeByte c) (lineInv_EncodeByte s c h)

theorem encode_assemble (X : Ascii85Encoder) (h : LineInv X.m_output X.m_column) :
    ∃ lines : List (List Nat),
      ((if lineWidth < X.m_column + 2 then { X with m_output := X.m_output ++ [13, 10] }
        else X).m_output ++ [126, 62, 13, 10]) = (lines.map (fun l => l ++ [13, 10])).join ∧
      ∀ l ∈ lines, (∀ x ∈ l, x ≠ 13 ∧ x ≠ 10) ∧ l.length ≤ 73 := by
  obtain ⟨lines, rest, hout, hlines, hrest, hlen, hcol⟩ := h
  by_cases hbig : lineWidth < X.m_column + 2
  · rw [if_pos hbig]
    refine ⟨lines ++ [rest] ++ [[126, 62]], ?_, ?_⟩
    · show (X.m_output ++ [13, 10]) ++ [126, 62, 13, 10] = _
      rw [hout]
      simp [List.append_assoc]
    · intro l hl
      rcases List.mem_append.mp hl with hl | hl
      · rcases List.mem_append.mp hl with hl | hl
        · exact hlines l hl
        · simp only [List.mem_singleton] at hl
          subst hl
          refine ⟨hrest, ?_⟩
          rw [hlen]
          omega
      · simp only [List.mem_singleton] at hl
        subst hl
        refine ⟨?_, by simp⟩
        intro x hx
        simp only [List.mem_cons, List.not_mem_nil, or_false] at hx
        rcases hx with rfl | rfl <;> omega
  · rw [if_neg hbig]
    unfold lineWidth at hbig
    refine ⟨lines ++ [rest ++ [126, 62]], ?_, ?_⟩
    · rw [hout]
      simp [List.append_assoc]
    · intro l hl
      rcases List.mem_append.mp hl with hl | hl
      · exact hlines l hl
      · simp only [List.mem_singleton] at hl
        subst hl
        constructor
        · intro x hx
          rcases List.mem_append.mp hx with hx | hx
          · exact hrest x hx
          · simp only [List.mem_cons, List.not_mem_nil, or_false] at hx
            rcases hx with rfl | rfl <;> omega
        · simp only [List.length_append, List.length_cons, List.length_nil]
          rw [hlen]
          omega

/-- C6 amended: every CRLF-terminated line of the encoder output holds at
most 73 characters (the post-increment in `m_column++ >= lineWidth` lets a
line reach 73, not 72, characters before the break is inserted). -/
theorem claim_C6_line_structure (data : List Nat) :
    ∃ lines : List (List Nat),
      EncodeToAscii85 data = (lines.map (fun l => l ++ [13, 10])).join ∧
      ∀ l ∈ lines, (∀ x ∈ l, x ≠ 13 ∧ x ≠ 10) ∧ l.length ≤ 73 := by
  by_cases hd : data.length < 1
  · have hnil : data = [] := List.length_eq_zero.mp (by omega)
    subst hnil
    exact ⟨[], by simp [EncodeToAscii85], by simp⟩
  · unfold EncodeToAscii85
    rw [if_neg hd]
    have h1 := lineInv_run data ⟨[], 0, 0, 0⟩
      ⟨[], [], by simp, by simp, by simp, rfl, by decide⟩
    have h2 : LineInv
        (if 0 < (data.foldl Ascii85Encoder.EncodeByte ⟨[], 0, 0, 0⟩).m_count then
          (data.foldl Ascii85Encoder.EncodeByte ⟨[], 0, 0, 0⟩).EncodeTuple
            (data.foldl Ascii85Encoder.EncodeByte ⟨[], 0, 0, 0⟩).m_tuple
            (data.foldl Ascii85Encoder.EncodeByte ⟨[], 0, 0, 0⟩).m_count
        else data.foldl Ascii85Encoder.EncodeByte ⟨[], 0, 0, 0⟩).m_output
        (if 0 < (data.foldl Ascii85Encoder.EncodeByte ⟨[], 0, 0, 0⟩).m_count then
          (data.foldl Ascii85Encoder.EncodeByte ⟨[], 0, 0, 0⟩).EncodeTuple
            (data.foldl Ascii85Encoder.EncodeByte ⟨[], 0, 0, 0⟩).m_tuple
            (data.foldl Ascii85Encoder.EncodeByte ⟨[], 0, 0, 0⟩).m_count
        else data.foldl Ascii85Encoder.EncodeByte ⟨[], 0, 0, 0⟩).m_column := by
      split
      · exact lineInv_EncodeTuple _ _ _ h1
      · exact h1
    exact encode_assemble _ h2

set_option maxRecDepth 10000 in
/-- C6 counterexample: on sixty bytes of value 1 the first emitted line
holds 73 characters, more than the 72 the claim allows. -/
theorem claim_C6_counterexample :
    (splitCRLF (EncodeToAscii85 (List.replicate 60 1))).headI.length = 73 := by
  decide

/-! printf scratch-buffer behavior (C7) -/

theorem bufferSizes_32 :
    bufferSizes 32 = [32, 64, 128, 256, 512, 1024, 2048, 4096, 8192] := by
  simp [bufferSizes]

theorem printfFindNone (r : String) (h : 8191 < r.length) :
    List.find? (fun sz => decide (r.length + 1 ≤ sz)) (bufferSizes 32) = none := by
  rw [List.find?_eq_none]
  intro x hx
  rw [bufferSizes_32] at hx
  simp only [List.mem_cons, List.not_mem_nil, or_false] at hx
  simp only [decide_eq_true_eq]
  omega

theorem printfResult_of_none (r : String)
    (hn : List.find? (fun sz => decide (r.length + 1 ≤ sz)) (bufferSizes 32) = none) :
    PrintfResult r = "" := by
  unfold PrintfResult
  rw [hn]

theorem printfResult_of_fits (r : String) (h : r.length ≤ 8191) : PrintfResult r = r := by
  have hs : ((bufferSizes 32).find? (fun sz => decide (r.length + 1 ≤ sz))).isSome := by
    rw [List.find?_isSome]
    refine ⟨8192, ?_, ?_⟩
    · rw [bufferSizes_32]; simp
    · simpa using by omega
  rcases hf : (bufferSizes 32).find? (fun sz => decide (r.length + 1 ≤ sz)) with _ | v
  · rw [hf] at hs; simp at hs
  · simp [PrintfResult, hf]

/-- C7 amended: the scratch buffer tries sizes 32, 64, ..., 8192 (the loop
bound `bufferSize < 16384` makes 8192 the largest attempt); text of up to
8191 characters is appended exactly, longer text is dropped entirely (the
`buffer` variable is never assigned when every attempt truncates). -/
theorem claim_C7_printf_buffer (rendered : String) :
    (rendered.length ≤ 8191 → PrintfResult rendered = rendered) ∧
    (8191 < rendered.length → PrintfResult rendered = "") :=
  ⟨fun h => printfResult_of_fits rendered h,
   fun h => printfResult_of_none rendered (printfFindNone rendered h)⟩

/-- C7 counterexample: a rendering of 8192 characters is appended as the
empty string, not as its 8191-character truncation. -/
theorem claim_C7_counterexample :
    PrintfResult (String.mk (List.replicate 8192 'a')) = "" ∧
    String.mk (List.replicate 8191 'a') ≠ "" := by
  constructor
  · exact printfResult_of_none _ (printfFindNone _
      (by simp only [String.length_mk, List.length_replicate]; omega))
  · intro hc
    have hlen := congrArg String.length hc
    simp only [String.length_mk, List.length_replicate] at hlen
    exact absurd hlen (by decide)

theorem claim_C7_witness :
    PrintfResult "abc" = "abc" ∧
    PrintfResult (String.mk (List.replicate 9000 'b')) = "" := by
  constructor
  · exact (claim_C7_printf_buffer "abc").1 (by decide)
  · exact (claim_C7_printf_buffer (String.mk (List.replicate 9000 'b'))).2
      (by simp only [String.length_mk, List.length_replicate]; omega)

/-! document-assembler field lemmas -/

theorem foldl_pushXref_images (l : List PDFImage) (s : Draw2pdf) :
    (l.foldl (fun st image => pushXref st image.m_objNum) s).m_lineStyle = s.m_lineStyle ∧
    (l.foldl (fun st image => pushXref st image.m_objNum) s).m_fillStyle = s.m_fillStyle ∧
    (l.foldl (fun st image => pushXref st image.m_objNum) s).m_textStyle = s.m_textStyle ∧
    (l.foldl (fun st image => pushXref st image.m_objNum) s).m_contentStream = s.m_contentStream ∧
    (l.foldl (fun st image => pushXref st image.m_objNum) s).m_objNumber = s.m_objNumber ∧
    (l.foldl (fun st image => pushXref st image.m_objNum) s).m_pagesObjNumber = s.m_pagesObjNumber ∧
    (l.foldl (fun st image => pushXref st image.m_objNum) s).m_contentsObjNumber = s.m_contentsObjNumber ∧
    (l.foldl (fun st image => pushXref st image.m_objNum) s).m_xobjectObjNumber = s.m_xobjectObjNumber ∧
    (l.foldl (fun st image => pushXref st image.m_objNum) s).m_pageObjectNumbers = s.m_pageObjectNumbers ∧
    (l.foldl (fun st image => pushXref st image.m_objNum) s).m_images = s.m_images ∧
    (l.foldl (fun st image => pushXref st image.m_objNum) s).m_crossRefs.map PDFCrossRef.m_objnum =
      s.m_crossRefs.map PDFCrossRef.m_objnum ++ l.map PDFImage.m_objNum := by
  induction l generalizing s with
  | nil => simp
  | cons a t ih =>
    have h := ih (pushXref s a.m_objNum)
    simpa [pushXref] using h

theorem DoEndPage_fields (s : Draw2pdf) :
    s.DoEndPage.m_contentStream = "" ∧
    s.DoEndPage.m_images = [] ∧
    s.DoEndPage.m_lineStyle = s.m_lineStyle ∧
    s.DoEndPage.m_fillStyle = s.m_fillStyle ∧
    s.DoEndPage.m_textStyle = s.m_textStyle ∧
    s.DoEndPage.m_objNumber = s.m_objNumber ∧
    s.DoEndPage.m_pagesObjNumber = s.m_pagesObjNumber ∧
    s.DoEndPage.m_pageObjectNumbers = s.m_pageObjectNumbers ∧
    s.DoEndPage.m_crossRefs.map PDFCrossRef.m_objnum =
      s.m_crossRefs.map PDFCrossRef.m_objnum ++
        ([s.m_contentsObjNumber] ++ [s.m_xobjectObjNumber]) ++
        s.m_images.map PDFImage.m_objNum := by
  obtain ⟨h1, h2, h3, h4, h5, h6, h7, h8, h9, h10, h11⟩ :=
    foldl_pushXref_images s.m_images
      (pushXref (pushXref s s.m_contentsObjNumber) s.m_xobjectObjNumber)
  exact ⟨rfl, rfl,
    h1.trans (by simp [pushXref]),
    h2.trans (by simp [pushXref]),
    h3.trans (by simp [pushXref]),
    h5.trans (by simp [pushXref]),
    h6.trans (by simp [pushXref]),
    h9.trans (by simp [pushXref]),
    h11.trans (by simp [pushXref])⟩

theorem DoBeginPage_fields (s : Draw2pdf) :
    s.DoBeginPage.m_contentStream = s.m_contentStream ∧
    s.DoBeginPage.m_images = s.m_images ∧
    s.DoBeginPage.m_lineStyle = s.m_lineStyle ∧
    s.DoBeginPage.m_fillStyle = s.m_fillStyle ∧
    s.DoBeginPage.m_textStyle = s.m_textStyle ∧
    s.DoBeginPage.m_objNumber = s.m_objNumber + 3 ∧
    s.DoBeginPage.m_pagesObjNumber = s.m_pagesObjNumber ∧
    s.DoBeginPage.m_contentsObjNumber = s.m_objNumber + 1 ∧
    s.DoBeginPage.m_xobjectObjNumber = s.m_objNumber + 2 ∧
    s.DoBeginPage.m_crossRefs.map PDFCrossRef.m_objnum =
      s.m_crossRefs.map PDFCrossRef.m_objnum ++ [s.m_objNumber] := by
  simp [Draw2pdf.DoBeginPage, pushXref]

/-- C10: style setters emit immediately; page turnover clears the stream
and keeps the stored styles without re-emitting them. -/
theorem claim_C10_style_setters (s : Draw2pdf) (ls : PDFLineStyle) (fs : PDFFillStyle)
    (ts : PDFTextStyle) :
    (s.SetLineStyle ls).m_contentStream =
      s.m_contentStream ++
        (s.fmtD ls.m_color.m_red ++ " " ++ s.fmtD ls.m_color.m_green ++ " " ++
          s.fmtD ls.m_color.m_blue ++ " RG\r\n" ++ s.fmtD ls.m_width ++ " w\r\n") ∧
    (s.SetLineStyle ls).m_lineStyle = ls ∧
    (s.SetFillStyle fs).m_contentStream =
      s.m_contentStream ++
        (s.fmtD fs.m_color.m_red ++ " " ++ s.fmtD fs.m_color.m_green ++ " " ++
          s.fmtD fs.m_color.m_blue ++ " rg\r\n") ∧
    (s.SetFillStyle fs).m_fillStyle = fs ∧
    (s.SetTextStyle ts).m_contentStream = s.m_contentStream ∧
    (s.SetTextStyle ts).m_textStyle = ts ∧
    s.NextPage.m_contentStream = "" ∧
    s.NextPage.m_lineStyle = s.m_lineStyle ∧
    s.NextPage.m_fillStyle = s.m_fillStyle ∧
    s.NextPage.m_textStyle = s.m_textStyle := by
  have he := DoEndPage_fields s
  have hb := DoBeginPage_fields s.DoEndPage
  refine ⟨rfl, rfl, rfl, rfl, rfl, rfl, ?_, ?_, ?_, ?_⟩ <;>
    simp [Draw2pdf.NextPage, hb.1, hb.2.1, hb.2.2.1, hb.2.2.2.1, hb.2.2.2.2.1,
          he.1, he.2.2.1, he.2.2.2.1, he.2.2.2.2.1]

/-- C9: a rectangle is drawn exactly as the four-corner polygon in the fixed
corner order min/min, max/min, max/max, min/max. -/
theorem claim_C9_rectangle_refines_polygon (s : Draw2pdf) (box : PDFBox) :
    s.DrawRectangle box =
      s.DrawPolygon
        [⟨box.m_min.x, box.m_min.y⟩, ⟨box.m_max.x, box.m_min.y⟩,
         ⟨box.m_max.x, box.m_max.y⟩, ⟨box.m_min.x, box.m_max.y⟩] := rfl

/-- C3: evaluation of the repacking loop at the failing 32-bpp input
(width 1, height 2, stride 4, pixels 1..8): the produced buffer has
`4*W*H = 8` bytes with a zero pad byte after each row's three data bytes,
not the tightly packed `3*W*H = 6` bytes the claim requires. -/
theorem claim_C3_repack_32bpp_eval :
    repackImage ⟨1, 2, 32, 4, 0, [1, 2, 3, 4, 5, 6, 7, 8]⟩ = [1, 2, 3, 0, 5, 6, 7, 0] ∧
    (repackImage ⟨1, 2, 32, 4, 0, [1, 2, 3, 4, 5, 6, 7, 8]⟩).length ≠ 3 * 1 * 2 := by
  decide

/-- C5 counterexample: the encoder returns nothing at all for empty input,
not the terminator sequence. -/
theorem claim_C5_counterexample : EncodeToAscii85 [] ≠ [126, 62, 13, 10] := by decide

/-- C5 amended: encoding an empty input produces an empty output — the
early return skips the terminator entirely. -/
theorem claim_C5_empty_input : EncodeToAscii85 [] = [] := rfl

/-- C8: with compression enabled, a failing external compress call makes the
image object carry an empty payload with declared length 0, still tagged
FlateDecode — no fallback to the ASCII-85 path happens. -/
theorem claim_C8_compression_failure (image : PDFImage) (errcode : Int)
    (compressedBytes : List Nat) (h : errcode ≠ 0) :
    imageEmission true errcode compressedBytes (repackImage image) =
      ⟨"FlateDecode", 0, []⟩ := by
  simp [imageEmission, DeflateData, h]

theorem claim_C8_witness :
    imageEmission true (-5) [9, 9] (repackImage ⟨1, 1, 8, 1, 0, [5]⟩) =
      ⟨"FlateDecode", 0, []⟩ :=
  claim_C8_compression_failure ⟨1, 1, 8, 1, 0, [5]⟩ (-5) [9, 9] (by decide)

/-- C4: the polygon fill-rule decision table and the polyline null-line
no-op. -/
theorem claim_C4_draw_rules (s : Draw2pdf) (points : List PDFPoint) :
    (s.m_lineStyle.m_pattern = LinePattern.LINE_NULL →
      s.m_fillStyle.m_pattern = FillPattern.FILL_NULL →
        (s.DrawPolygon points).m_contentStream = s.m_contentStream) ∧
    (s.m_lineStyle.m_pattern = LinePattern.LINE_SOLID →
      s.m_fillStyle.m_pattern = FillPattern.FILL_SOLID →
        (s.DrawPolygon points).m_contentStream =
          s.m_contentStream ++ (polyPathString s.fmtD points ++ "h\r\n" ++ "B*\r\n")) ∧
    (s.m_lineStyle.m_pattern = LinePattern.LINE_NULL →
      s.m_fillStyle.m_pattern = FillPattern.FILL_SOLID →
        (s.DrawPolygon points).m_contentStream =
          s.m_contentStream ++ (polyPathString s.fmtD points ++ "h\r\n" ++ "f*\r\n")) ∧
    (s.m_lineStyle.m_pattern = LinePattern.LINE_SOLID →
      s.m_fillStyle.m_pattern = FillPattern.FILL_NULL →
        (s.DrawPolygon points).m_contentStream =
          s.m_contentStream ++ (polyPathString s.fmtD points ++ "h\r\n" ++ "S\r\n")) ∧
    (s.m_lineStyle.m_pattern = LinePattern.LINE_NULL →
      (s.DrawPolyline points).m_contentStream = s.m_contentStream) := by
  refine ⟨?_, ?_, ?_, ?_, ?_⟩ <;> intro h1 <;> try intro h2
  all_goals simp [Draw2pdf.DrawPolygon, Draw2pdf.DrawPolyline, appendCS, h1]
  all_goals simp [h1, h2, String.append_assoc]


theorem claim_C4_witness :
    (sampleDoc.DrawPolygon [⟨1, 2⟩]).m_contentStream =
      sampleDoc.m_contentStream ++
        (polyPathString sampleDoc.fmtD [⟨1, 2⟩] ++ "h\r\n" ++ "B*\r\n") :=
  (claim_C4_draw_rules sampleDoc [⟨1, 2⟩]).2.1 rfl rfl

/-! object-number accounting for the cross-reference table (C1) -/


theorem allocInv_open (ft : Nat → Nat) (fmtD : ℚ → String) (pmin pmax : PDFPoint)
    (ci cc : Bool) : AllocInv (OpenDoc ft fmtD pmin pmax ci cc) := by
  constructor
  · show (↑([1, 3] : List Nat) + (({2} : Multiset Nat) + {4} + {5} + ↑([] : List Nat))
      : Multiset Nat) = ↑(List.range' 1 5)
    decide
  · show (1 : Nat) ≤ 6
    decide

theorem allocInv_of_fields {s s' : Draw2pdf} (h : AllocInv s)
    (h1 : s'.m_crossRefs = s.m_crossRefs) (h2 : s'.m_objNumber = s.m_objNumber)
    (h3 : s'.m_pagesObjNumber = s.m_pagesObjNumber)
    (h4 : s'.m_contentsObjNumber = s.m_contentsObjNumber)
    (h5 : s'.m_xobjectObjNumber = s.m_xobjectObjNumber)
    (h6 : s'.m_images = s.m_images) : AllocInv s' := by
  obtain ⟨hv, hn⟩ := h
  constructor
  · unfold allocatedView
    rw [h1, h2, h3, h4, h5, h6]
    exact hv
  · rw [h2]
    exact hn

theorem DrawPolyline_fields (s : Draw2pdf) (points : List PDFPoint) :
    (s.DrawPolyline points).m_crossRefs = s.m_crossRefs ∧
    (s.DrawPolyline points).m_objNumber = s.m_objNumber ∧
    (s.DrawPolyline points).m_pagesObjNumber = s.m_pagesObjNumber ∧
    (s.DrawPolyline points).m_contentsObjNumber = s.m_contentsObjNumber ∧
    (s.DrawPolyline points).m_xobjectObjNumber = s.m_xobjectObjNumber ∧
    (s.DrawPolyline points).m_images = s.m_images := by
  unfold Draw2pdf.DrawPolyline appendCS
  split
  · exact ⟨rfl, rfl, rfl, rfl, rfl, rfl⟩
  · exact ⟨rfl, rfl, rfl, rfl, rfl, rfl⟩

theorem DrawPolygon_fields (s : Draw2pdf) (points : List PDFPoint) :
    (s.DrawPolygon points).m_crossRefs = s.m_crossRefs ∧
    (s.DrawPolygon points).m_objNumber = s.m_objNumber ∧
    (s.DrawPolygon points).m_pagesObjNumber = s.m_pagesObjNumber ∧
    (s.DrawPolygon points).m_contentsObjNumber = s.m_contentsObjNumber ∧
    (s.DrawPolygon points).m_xobjectObjNumber = s.m_xobjectObjNumber ∧
    (s.DrawPolygon points).m_images = s.m_images := by
  unfold Draw2pdf.DrawPolygon appendCS
  dsimp only
  split
  · exact ⟨rfl, rfl, rfl, rfl, rfl, rfl⟩
  · split
    · exact ⟨rfl, rfl, rfl, rfl, rfl, rfl⟩
    · split
      · exact ⟨rfl, rfl, rfl, rfl, rfl, rfl⟩
      · split
        · exact ⟨rfl, rfl, rfl, rfl, rfl, rfl⟩
        · exact ⟨rfl, rfl, rfl, rfl, rfl, rfl⟩

theorem allocInv_DrawImage (s : Draw2pdf) (image : PDFImage) (a b c d : ℚ)
    (h : AllocInv s) : AllocInv (s.DrawImage image a b c d) := by
  obtain ⟨hv, hn⟩ := h
  obtain ⟨m, hm⟩ : ∃ m, s.m_objNumber = m + 1 := ⟨s.m_objNumber - 1, by omega⟩
  constructor
  · show allocatedView _ = _
    unfold allocatedView at hv ⊢
    show (↑(s.m_crossRefs.map PDFCrossRef.m_objnum) +
      ({s.m_pagesObjNumber} + {s.m_contentsObjNumber} + {s.m_xobjectObjNumber} +
        ↑((s.m_images ++ [{ image with m_objNum := s.m_objNumber }]).map PDFImage.m_objNum))
      : Multiset Nat) = ↑(List.range' 1 (s.m_objNumber + 1 - 1))
    rw [List.map_append, ← Multiset.coe_add]
    rw [show (List.map PDFImage.m_objNum [{ image with m_objNum := s.m_objNumber }]) =
      [s.m_objNumber] from rfl]
    rw [hm]
    rw [show m + 1 + 1 - 1 = m + 1 from by omega]
    rw [List.range'_concat, ← Multiset.coe_add]
    rw [hm, show m + 1 - 1 = m from by omega] at hv
    rw [← hv]
    rw [show (1 + 1 * m) = m + 1 from by omega]
    abel
  · show s.m_objNumber + 1 ≥ 1
    omega

theorem allocInv_NextPage (s : Draw2pdf) (h : AllocInv s) : AllocInv s.NextPage := by
  obtain ⟨hv, hn⟩ := h
  obtain ⟨m, hm⟩ : ∃ m, s.m_objNumber = m + 1 := ⟨s.m_objNumber - 1, by omega⟩
  obtain ⟨he1, he2, _, _, _, he6, he7, _, he9⟩ := DoEndPage_fields s
  obtain ⟨_, hb2, _, _, _, hb6, hb7, hb8, hb9, hb10⟩ := DoBeginPage_fields s.DoEndPage
  constructor
  · unfold allocatedView
    unfold Draw2pdf.NextPage
    rw [hb10, he9, hb7, he7, hb8, hb9, he6, hb2, he2]
    rw [hb6, he6, hm]
    rw [show m + 1 + 3 - 1 = m + 3 from by omega]
    rw [List.range'_concat, List.range'_concat, List.range'_concat]
    rw [hm, show m + 1 - 1 = m from by omega] at hv
    unfold allocatedView at hv
    simp only [← Multiset.coe_add, List.map_nil, one_mul, Multiset.coe_singleton]
    rw [show (1 + m) = m + 1 from by omega,
      show (1 + (m + 1)) = m + 2 from by omega,
      show (1 + (m + 2)) = m + 3 from by omega]
    rw [← hv]
    abel
  · unfold Draw2pdf.NextPage
    rw [hb6, he6]
    omega

theorem allocInv_applyOp (s : Draw2pdf) (op : DocOp) (h : AllocInv s) :
    AllocInv (applyOp s op) := by
  cases op with
  | setLineStyle style => exact ⟨h.1, h.2⟩
  | setFillStyle style => exact ⟨h.1, h.2⟩
  | setTextStyle style => exact ⟨h.1, h.2⟩
  | drawLine pt1 pt2 =>
    obtain ⟨h1, h2, h3, h4, h5, h6⟩ := DrawPolyline_fields s [pt1, pt2]
    exact allocInv_of_fields h h1 h2 h3 h4 h5 h6
  | drawPolyline points =>
    obtain ⟨h1, h2, h3, h4, h5, h6⟩ := DrawPolyline_fields s points
    exact allocInv_of_fields h h1 h2 h3 h4 h5 h6
  | drawPolygon points =>
    obtain ⟨h1, h2, h3, h4, h5, h6⟩ := DrawPolygon_fields s points
    exact allocInv_of_fields h h1 h2 h3 h4 h5 h6
  | drawRectangle box =>
    obtain ⟨h1, h2, h3, h4, h5, h6⟩ := DrawPolygon_fields s
      [⟨box.m_min.x, box.m_min.y⟩, ⟨box.m_max.x, box.m_min.y⟩,
       ⟨box.m_max.x, box.m_max.y⟩, ⟨box.m_min.x, box.m_max.y⟩]
    exact allocInv_of_fields h h1 h2 h3 h4 h5 h6
  | drawTextString point text => exact ⟨h.1, h.2⟩
  | drawImage image a b c d => exact allocInv_DrawImage s image a b c d h
  | nextPage => exact allocInv_NextPage s h

theorem allocInv_runOps (ops : List DocOp) : ∀ s : Draw2pdf,
    AllocInv s → AllocInv (runOps s ops) := by
  induction ops with
  | nil => intro s h; exact h
  | cons op rest ih =>
    intro s h
    exact ih (applyOp s op) (allocInv_applyOp s op h)

theorem foldr_max_range' (n : Nat) : ∀ sstart : Nat,
    (List.range' sstart n).foldr max 0 = if n = 0 then 0 else sstart + n - 1 := by
  induction n with
  | zero => intro sstart; rfl
  | succ k ih =>
    intro sstart
    rw [List.range'_succ, List.foldr_cons, ih (sstart + 1)]
    rcases Nat.eq_zero_or_pos k with hk | hk
    · subst hk
      simp
    · rw [if_neg (by omega), if_neg (by omega)]
      omega

theorem closeDoc_map (s : Draw2pdf) :
    (pushXref s.DoEndPage s.DoEndPage.m_pagesObjNumber).m_crossRefs.map PDFCrossRef.m_objnum =
      s.m_crossRefs.map PDFCrossRef.m_objnum ++
        ([s.m_contentsObjNumber] ++ [s.m_xobjectObjNumber]) ++
        s.m_images.map PDFImage.m_objNum ++ [s.m_pagesObjNumber] := by
  obtain ⟨_, _, _, _, _, _, he7, _, he9⟩ := DoEndPage_fields s
  simp only [pushXref, List.map_append, List.map_cons, List.map_nil, he9, he7]

/-- C1: after any drawing-phase call sequence, the sorted cross-reference
table built at `Close` lists the object numbers `1 .. (next object number
- 1)` exactly once each in strictly ascending order, and the declared entry
count (`m_crossRefs.size() + 1`, counting the dummy free entry) equals the
maximum object number plus one. -/
theorem claim_C1_xref_table (ft : Nat → Nat) (fmtD : ℚ → String) (pmin pmax : PDFPoint)
    (ci cc : Bool) (ops : List DocOp) :
    (CloseDoc (runOps (OpenDoc ft fmtD pmin pmax ci cc) ops)).1.map PDFCrossRef.m_objnum =
      List.range' 1 ((runOps (OpenDoc ft fmtD pmin pmax ci cc) ops).m_objNumber - 1) ∧
    ((CloseDoc (runOps (OpenDoc ft fmtD pmin pmax ci cc) ops)).1.map
        PDFCrossRef.m_objnum).Pairwise (· < ·) ∧
    (CloseDoc (runOps (OpenDoc ft fmtD pmin pmax ci cc) ops)).2 =
      ((CloseDoc (runOps (OpenDoc ft fmtD pmin pmax ci cc) ops)).1.map
        PDFCrossRef.m_objnum).foldr max 0 + 1 := by
  obtain ⟨hv, hn⟩ := allocInv_runOps ops _ (allocInv_open ft fmtD pmin pmax ci cc)
  set s := runOps (OpenDoc ft fmtD pmin pmax ci cc) ops with hsdef
  set L := (pushXref s.DoEndPage s.DoEndPage.m_pagesObjNumber).m_crossRefs with hL
  have hmap := closeDoc_map s
  rw [← hL] at hmap
  have hmulti : (↑(L.map PDFCrossRef.m_objnum) : Multiset Nat) =
      ↑(List.range' 1 (s.m_objNumber - 1)) := by
    rw [hmap]
    unfold allocatedView at hv
    rw [← hv]
    simp only [← Multiset.coe_add, Multiset.coe_singleton]
    abel
  have hperm : List.Perm (L.map PDFCrossRef.m_objnum) (List.range' 1 (s.m_objNumber - 1)) :=
    Multiset.coe_eq_coe.mp hmulti
  have hsorted : List.Sorted xrefLE (sortXrefs L) := List.sorted_insertionSort xrefLE L
  have hsortperm : List.Perm (sortXrefs L) L := List.perm_insertionSort xrefLE L
  have hmapperm : List.Perm ((sortXrefs L).map PDFCrossRef.m_objnum)
      (List.range' 1 (s.m_objNumber - 1)) :=
    (hsortperm.map PDFCrossRef.m_objnum).trans hperm
  have hmapsorted : List.Sorted (· ≤ ·) ((sortXrefs L).map PDFCrossRef.m_objnum) :=
    List.Pairwise.map PDFCrossRef.m_objnum (fun a b hab => hab) hsorted
  have hrangesorted : List.Sorted (· ≤ ·) (List.range' 1 (s.m_objNumber - 1)) :=
    (List.pairwise_lt_range' 1 (s.m_objNumber - 1)).imp (fun h => le_of_lt h)
  have heq : (sortXrefs L).map PDFCrossRef.m_objnum = List.range' 1 (s.m_objNumber - 1) :=
    List.eq_of_perm_of_sorted hmapperm hmapsorted hrangesorted
  have hlen : L.length = s.m_objNumber - 1 := by
    have hl := hperm.length_eq
    simpa using hl
  refine ⟨heq, ?_, ?_⟩
  · show ((sortXrefs L).map PDFCrossRef.m_objnum).Pairwise (· < ·)
    rw [heq]
    exact List.pairwise_lt_range' 1 _
  · show L.length + 1 = ((sortXrefs L).map PDFCrossRef.m_objnum).foldr max 0 + 1
    rw [heq, foldr_max_range']
    split <;> omega
